import Mathlib

/-!
Verification development for the graph4nlp repository.

This file gives a shallow embedding (over exact rational arithmetic) of:
  * the directional GCN layer family in
    `graph4nlp/pytorch/modules/graph_embedding/gcn.py`
    (`UndirectedGCNLayerConv.forward`, `BiFuseGCNLayerConv.forward`,
     `BiSepGCNLayerConv.forward`, `GCNLayer.__init__`, `GCN.forward`);
  * the bracket-repair step and the OOV-vocabulary preparation in
    `examples/pytorch/semantic_parsing/graph2tree/.../runner.py`.

The irrational normalisation coefficient `torch.pow(deg, -0.5)` and the
`torch.sigmoid` nonlinearity are kept as explicit function parameters
(`rsqrt`, `sigmoid`): every statement below is proved for an arbitrary
instantiation, hence in particular for the real ones.  Tensors of per-node
features are functions `Fin n → Fin d → ℚ`.
-/

/-- Per-node feature vector of width `d` (one row of a torch tensor). -/
abbrev Vec (d : Nat) := Fin d → ℚ

/-- A `din × dout` weight matrix (`torch.Tensor(in_feats, out_feats)`). -/
abbrev Mat (din dout : Nat) := Fin din → Fin dout → ℚ

/-- `torch.matmul(v, W)` for a row vector `v`. -/
def vecMulM {din dout : Nat} (v : Vec din) (W : Mat din dout) : Vec dout :=
  fun j => ∑ i, v i * W i j

/-- The identity weight matrix. -/
def idMat (d : Nat) : Mat d d := fun i j => if i = j then 1 else 0

/-- Directed graph in DGL edge-list form: `n` nodes, edges as
(source, destination) pairs; edge features are lists aligned with this
edge order. -/
structure Graph where
  n : Nat
  edges : List (Fin n × Fin n)

/-- `DGLGraph.reverse()`: every edge has its endpoints swapped; edge order
is preserved, so edge features stay aligned. -/
def Graph.reverse (g : Graph) : Graph :=
  ⟨g.n, g.edges.map (fun e => (e.2, e.1))⟩

/-- `graph.in_degrees()` at node `i`. -/
def Graph.inDeg (g : Graph) (i : Fin g.n) : Nat :=
  (g.edges.filter (fun e => decide (e.2 = i))).length

/-- `graph.out_degrees()` at node `i`. -/
def Graph.outDeg (g : Graph) (i : Fin g.n) : Nat :=
  (g.edges.filter (fun e => decide (e.1 = i))).length

/-- `degs.float().clamp(min=1)`. -/
def clampDeg (d : Nat) : ℚ := max (d : ℚ) 1

/-- `update_all(fn.copy_src('h','m'), fn.sum('m','h'))`: at node `i`, sum of
the source features over all edges entering `i` (0 when none). -/
def aggU {n d : Nat} (feat : Fin n → Vec d) : List (Fin n × Fin n) → Fin n → Vec d
  | [], _ => fun _ => 0
  | e :: es, i => fun k => (if e.2 = i then feat e.1 k else 0) + aggU feat es i k

/-- `update_all(fn.u_mul_e('h', w, 'm'), fn.sum('m','h'))`: each message is
the source feature multiplied by the scalar weight carried by the edge. -/
def aggW {n d : Nat} (feat : Fin n → Vec d) :
    List ((Fin n × Fin n) × ℚ) → Fin n → Vec d
  | [], _ => fun _ => 0
  | ew :: rest, i =>
    fun k => (if ew.1.2 = i then ew.2 * feat ew.1.1 k else 0) + aggW feat rest i k

/-- One `if <cond> is None: copy_src else: edata[...] = <val>; u_mul_e`
block from the source.  `cond` is the tensor tested against `None` and
`val` the tensor actually assigned to the edge feature; in the correct
branches of the source both are the same tensor, while the backward
aggregate-first branches of `BiFuseGCNLayerConv` and `BiSepGCNLayerConv`
pass different ones.  Assigning `None` as an edge feature is a runtime
error in DGL, modelled as `.error`. -/
def aggBranch {d : Nat} (g : Graph) (cond val : Option (List ℚ))
    (feat : Fin g.n → Vec d) : Except String (Fin g.n → Vec d) :=
  match cond with
  | none => .ok (fun i => aggU feat g.edges i)
  | some _ =>
    match val with
    | none => .error "edge feature tensor is None"
    | some ws => .ok (fun i => aggW feat (g.edges.zip ws) i)

/-- Normalization mode of a GCN layer (the validated `norm` strings). -/
inductive NormMode
  | none
  | both
  | right
deriving DecidableEq

/-- Resolution of the externally supplied `weight` argument against the
layer's registered `self.weight` parameter
(`UndirectedGCNLayerConv.forward`, lines 369-375, and the identical blocks
of the bidirectional layers).  The configuration in which the layer was
built with `weight=False` and no external weight is supplied (output width
would stay `din`) is outside every claim and is not modelled. -/
def resolveWeight {din dout : Nat} (ext reg : Option (Mat din dout)) :
    Except String (Mat din dout) :=
  match ext with
  | some w =>
    match reg with
    | some _ =>
      .error "External weight is provided while at the same time the module has defined its own weight parameter."
    | none => .ok w
  | none =>
    match reg with
    | some w => .ok w
    | none => .error "not modelled: weight=False layer with no external weight"

/-- One direction of GCN message passing, the common body of
`UndirectedGCNLayerConv.forward` and of each `with graph.local_scope()`
block of the bidirectional layers: pre-normalisation (mode `both`), weight
resolution, the size-dependent aggregate/matmul branch, post-normalisation,
bias, activation.  `condMF`/`valMF` are the condition/value edge-weight
tensors of the multiply-weight-first branch (`in_feats > out_feats`),
`condAF`/`valAF` those of the aggregate-first branch; `multFirst` is the
branch actually taken. -/
def dirCore (rsqrt : ℚ → ℚ) {din dout : Nat} (norm : NormMode) (act : Option (ℚ → ℚ))
    (reg : Option (Mat din dout)) (bias : Option (Vec dout))
    (g : Graph) (feat : Fin g.n → Vec din) (ext : Option (Mat din dout))
    (condMF valMF condAF valAF : Option (List ℚ)) (multFirst : Bool) :
    Except String (Fin g.n → Vec dout) :=
  let feat1 : Fin g.n → Vec din :=
    if norm = NormMode.both then
      fun i k => rsqrt (clampDeg (g.outDeg i)) * feat i k
    else feat
  match resolveWeight ext reg with
  | .error e => .error e
  | .ok W =>
    let rstE : Except String (Fin g.n → Vec dout) :=
      if multFirst then
        aggBranch g condMF valMF (fun i k => vecMulM (feat1 i) W k)
      else
        match aggBranch g condAF valAF feat1 with
        | .error e => .error e
        | .ok a => .ok (fun i => vecMulM (a i) W)
    match rstE with
    | .error e => .error e
    | .ok rst =>
      let rst2 : Fin g.n → Vec dout :=
        match norm with
        | NormMode.none => rst
        | NormMode.both => fun i k => rst i k * rsqrt (clampDeg (g.inDeg i))
        | NormMode.right => fun i k => rst i k * (1 / clampDeg (g.inDeg i))
      let rst3 : Fin g.n → Vec dout :=
        match bias with
        | some b => fun i k => rst2 i k + b k
        | none => rst2
      match act with
      | some f => .ok (fun i k => f (rst3 i k))
      | none => .ok rst3

/-- Parameters of `UndirectedGCNLayerConv`. -/
structure UParams (din dout : Nat) where
  weight : Option (Mat din dout)
  bias : Option (Vec dout)
  norm : NormMode
  act : Option (ℚ → ℚ)

/-- Parameters of the bidirectional layers (`weight_fw`/`weight_bw`,
`bias_fw`/`bias_bw`). -/
structure BiParams (din dout : Nat) where
  weight_fw : Option (Mat din dout)
  weight_bw : Option (Mat din dout)
  bias_fw : Option (Vec dout)
  bias_bw : Option (Vec dout)
  norm : NormMode
  act : Option (ℚ → ℚ)

/-- `UndirectedGCNLayerConv.forward` with an explicit choice of the
aggregate/matmul branch (gcn.py lines 334-420).  Both the condition and
the value of each aggregation block are `edge_weight`, as in the source.
The leading `assert reverse_edge_weight is None` is modelled as an error. -/
def undirectedPath (rsqrt : ℚ → ℚ) {din dout : Nat} (p : UParams din dout)
    (g : Graph) (feat : Fin g.n → Vec din) (ext : Option (Mat din dout))
    (ew rew : Option (List ℚ)) (multFirst : Bool) :
    Except String (Fin g.n → Vec dout) :=
  if rew.isSome then .error "assert reverse_edge_weight is None"
  else dirCore rsqrt p.norm p.act p.weight p.bias g feat ext ew ew ew ew multFirst

/-- `UndirectedGCNLayerConv.forward`: the branch is taken from
`self._in_feats > self._out_feats`. -/
def undirectedForward (rsqrt : ℚ → ℚ) {din dout : Nat} (p : UParams din dout)
    (g : Graph) (feat : Fin g.n → Vec din) (ext : Option (Mat din dout))
    (ew rew : Option (List ℚ)) : Except String (Fin g.n → Vec dout) :=
  undirectedPath rsqrt p g feat ext ew rew (decide (dout < din))

/-- `BiSepGCNLayerConv.forward` (gcn.py lines 768-925).  The forward
direction aggregates on `g` with `edge_weight` in both branches.  The
backward direction runs on `g.reverse`; its multiply-first branch tests
and uses `reverse_edge_weight` (lines 887-893), but its aggregate-first
branch tests `reverse_edge_weight` while assigning
`edata['reverse_edge_weight'] = edge_weight` (lines 898-904) — the
condition/value pair `(rew, ew)` below reproduces that source line
verbatim.  The external `weight` argument (single tensor or tuple) is
modelled as the resolved pair `extfw`/`extbw`. -/
def biSepForward (rsqrt : ℚ → ℚ) {din dout : Nat} (p : BiParams din dout)
    (g : Graph) (ffw fbw : Fin g.n → Vec din)
    (extfw extbw : Option (Mat din dout)) (ew rew : Option (List ℚ)) :
    Except String ((Fin g.n → Vec dout) × (Fin g.n → Vec dout)) := do
  let fw ← dirCore rsqrt p.norm p.act p.weight_fw p.bias_fw g ffw extfw
      ew ew ew ew (decide (dout < din))
  let bw ← dirCore rsqrt p.norm p.act p.weight_bw p.bias_bw g.reverse fbw extbw
      rew rew rew ew (decide (dout < din))
  pure (fw, bw)

/-- Block placement of the four parts of
`torch.cat([fw, bw, fw*bw, fw-bw], dim=-1)`. -/
def concat4 {d : Nat} (a b c e : Vec d) : Vec (4 * d) := fun i =>
  if h1 : i.val < d then a ⟨i.val, h1⟩
  else if h2 : i.val < 2 * d then b ⟨i.val - d, by omega⟩
  else if h3 : i.val < 3 * d then c ⟨i.val - 2 * d, by omega⟩
  else e ⟨i.val - 3 * d, by have := i.isLt; omega⟩

/-- The fusion step of `BiFuseGCNLayerConv.forward` (gcn.py lines 687-690):
`gate = sigmoid(fuse_linear(cat([fw, bw, fw*bw, fw-bw])))` and
`rst = gate * fw + (1 - gate) * bw`. -/
def fuseCombine {n dout : Nat} (sigmoid : ℚ → ℚ)
    (fuseW : Mat (4 * dout) dout) (fuseB : Vec dout)
    (fw bw : Fin n → Vec dout) : Fin n → Vec dout :=
  fun i k =>
    let fv : Vec (4 * dout) :=
      concat4 (fw i) (bw i) (fun j => fw i j * bw i j) (fun j => fw i j - bw i j)
    let gate : ℚ := sigmoid (vecMulM fv fuseW k + fuseB k)
    gate * fw i k + (1 - gate) * bw i k

/-- `BiFuseGCNLayerConv.forward` (gcn.py lines 530-695).  Both directions
read the same input feature (`feat_fw = feat_bw = feat`).  The backward
multiply-first branch tests and uses `reverse_edge_weight`
(lines 649-655); the backward aggregate-first branch tests
`edge_weight is None` while assigning `reverse_edge_weight`
(lines 660-666) — the condition/value pair `(ew, rew)` below reproduces
that source block verbatim. -/
def biFuseForward (rsqrt sigmoid : ℚ → ℚ) {din dout : Nat} (p : BiParams din dout)
    (fuseW : Mat (4 * dout) dout) (fuseB : Vec dout)
    (g : Graph) (feat : Fin g.n → Vec din)
    (extfw extbw : Option (Mat din dout)) (ew rew : Option (List ℚ)) :
    Except String (Fin g.n → Vec dout) := do
  let fw ← dirCore rsqrt p.norm p.act p.weight_fw p.bias_fw g feat extfw
      ew ew ew ew (decide (dout < din))
  let bw ← dirCore rsqrt p.norm p.act p.weight_bw p.bias_bw g.reverse feat extbw
      rew rew ew rew (decide (dout < din))
  pure (fuseCombine sigmoid fuseW fuseB fw bw)

/-- The three layer variants a `GCNLayer` can dispatch to
(`GCNLayer.__init__`, gcn.py lines 163-188). -/
inductive LayerP (din dout : Nat)
  | undirected (p : UParams din dout)
  | biSep (p : BiParams din dout)
  | biFuse (p : BiParams din dout) (fuseW : Mat (4 * dout) dout) (fuseB : Vec dout)

/-- Validation of the `norm` string shared by the three conv constructors
(gcn.py lines 278-280, 477-479, 717-719). -/
def normOfString (s : String) : Except String NormMode :=
  if s = "none" then .ok NormMode.none
  else if s = "both" then .ok NormMode.both
  else if s = "right" then .ok NormMode.right
  else .error ("Invalid norm value. Must be either none, both or right. But got " ++ s)

/-- `GCNLayer.__init__` (gcn.py lines 153-188): dispatch on the
`direction_option` string, each branch running the corresponding conv
constructor (which validates `norm`).  The random initial weight values
(`xavier_uniform_`) are taken as inputs `iWfw`/`iWbw`; `zeros_` makes the
initial bias the zero vector; the fuse linear layer of `bi_fuse` gets its
initial parameters `fuseW`/`fuseB` as inputs. -/
def gcnLayerInit {din dout : Nat} (direction normS : String) (weight bias : Bool)
    (act : Option (ℚ → ℚ)) (iWfw iWbw : Mat din dout)
    (fuseW : Mat (4 * dout) dout) (fuseB : Vec dout) :
    Except String (LayerP din dout) :=
  let regW : Option (Mat din dout) := if weight then some iWfw else none
  let regWbw : Option (Mat din dout) := if weight then some iWbw else none
  let regB : Option (Vec dout) := if bias then some (fun _ => 0) else none
  if direction = "undirected" then
    (normOfString normS).map (fun nm => LayerP.undirected ⟨regW, regB, nm, act⟩)
  else if direction = "bi_sep" then
    (normOfString normS).map (fun nm => LayerP.biSep ⟨regW, regWbw, regB, regB, nm, act⟩)
  else if direction = "bi_fuse" then
    (normOfString normS).map (fun nm => LayerP.biFuse ⟨regW, regWbw, regB, regB, nm, act⟩ fuseW fuseB)
  else .error ("Unknown direction_option value: " ++ direction)

/-- Per-node hidden state flowing between encoder layers: a single tensor,
or the `[h_fw, h_bw]` pair in `bi_sep` mode. -/
inductive Feat (n d : Nat)
  | single (f : Fin n → Vec d)
  | pair (a b : Fin n → Vec d)

/-- `GCNLayer.forward` (gcn.py lines 190-209): delegate to the wrapped
variant.  A feature of the wrong shape for the variant is a runtime type
error in the source, modelled as `.error`.  No external weight is passed
by the encoder. -/
def gcnLayerForward (rsqrt sigmoid : ℚ → ℚ) {d : Nat} (l : LayerP d d)
    (g : Graph) (h : Feat g.n d) (ew rew : Option (List ℚ)) :
    Except String (Feat g.n d) :=
  match l, h with
  | .undirected p, .single f =>
    (undirectedForward rsqrt p g f none ew rew).map .single
  | .biSep p, .pair a b =>
    (biSepForward rsqrt p g a b none none ew rew).map (fun pr => .pair pr.1 pr.2)
  | .biFuse p fW fB, .single f =>
    (biFuseForward rsqrt sigmoid p fW fB g f none none ew rew).map .single
  | _, _ => .error "feature shape does not match the direction option"

/-- `h.flatten(1)` between encoder layers: per-node features here are
rank-1, so flattening from dimension 1 is the identity. -/
def flattenFeat {n d : Nat} (h : Feat n d) : Feat n d := h

/-- The layer loop of `GCN.forward` (gcn.py lines 102-110): the first
`num_layers - 1` layers receive `edge_weight`/`reverse_edge_weight` and
their outputs are flattened; the final output-projection layer is invoked
as `self.gcn_layers[-1](dgl_graph, h)`, i.e. with no edge weights.
`num_layers = 0` is excluded by the constructor assert. -/
def forwardLoop (rsqrt sigmoid : ℚ → ℚ) {d : Nat} (g : Graph) :
    List (LayerP d d) → Feat g.n d → Option (List ℚ) → Option (List ℚ) →
    Except String (Feat g.n d)
  | [], _, _, _ => .error "assert num_layers greater than 0"
  | [l], h, _, _ => gcnLayerForward rsqrt sigmoid l g h none none
  | l :: l2 :: rest, h, ew, rew =>
    match gcnLayerForward rsqrt sigmoid l g h ew rew with
    | .error e => .error e
    | .ok h2 => forwardLoop rsqrt sigmoid g (l2 :: rest) (flattenFeat h2) ew rew

/-- Spec-side description of the first `num_layers - 1` iterations of the
encoder loop: every layer in the list is run with the given edge weights,
flattening in between. -/
def runHiddenLayers (rsqrt sigmoid : ℚ → ℚ) {d : Nat} (g : Graph) :
    List (LayerP d d) → Feat g.n d → Option (List ℚ) → Option (List ℚ) →
    Except String (Feat g.n d)
  | [], h, _, _ => .ok h
  | l :: rest, h, ew, rew =>
    match gcnLayerForward rsqrt sigmoid l g h ew rew with
    | .error e => .error e
    | .ok h2 => runHiddenLayers rsqrt sigmoid g rest (flattenFeat h2) ew rew

/-- Direction option of the encoder. -/
inductive Direction
  | undirected
  | biSep
  | biFuse
deriving DecidableEq

/-- The graph container fields `GCN.forward` reads: topology, the
`node_feat` node feature and the `edge_weight`/`reverse_edge_weight` edge
features. -/
structure GraphDataQ (d : Nat) where
  graph : Graph
  nodeFeat : Fin graph.n → Vec d
  edgeWeight : List ℚ
  reverseEdgeWeight : List ℚ

/-- `GCN.forward` (gcn.py lines 71-120) up to the final `torch.cat` of the
`bi_sep` pair (the returned `node_emb` is a fixed function of the `Feat`
value returned here).  With `use_edge_weight` the `edge_weight` feature is
read, and `reverse_edge_weight` only for bidirectional modes; the layers
are modelled with a uniform feature width `d`. -/
def gcnForward (rsqrt sigmoid : ℚ → ℚ) {d : Nat} (dir : Direction)
    (layers : List (LayerP d d)) (useEdgeWeight : Bool) (gd : GraphDataQ d) :
    Except String (Feat gd.graph.n d) :=
  let h0 : Feat gd.graph.n d :=
    match dir with
    | Direction.biSep => Feat.pair gd.nodeFeat gd.nodeFeat
    | _ => Feat.single gd.nodeFeat
  let ew : Option (List ℚ) := if useEdgeWeight then some gd.edgeWeight else none
  let rew : Option (List ℚ) :=
    if useEdgeWeight then
      if dir = Direction.undirected then none else some gd.reverseEdgeWeight
    else none
  forwardLoop rsqrt sigmoid gd.graph layers h0 ew rew

/-- `num_left_paren = sum(1 for c in candidate if idx2symbol[c] == "(")`
from the bracket-repair step of `Jobs.eval`. -/
def countLeftParen (idx2symbol : Nat → String) (candidate : List Nat) : Nat :=
  (candidate.filter (fun c => decide (idx2symbol c = "("))).length

/-- `num_right_paren = sum(1 for c in candidate if idx2symbol[c] == ")")`. -/
def countRightParen (idx2symbol : Nat → String) (candidate : List Nat) : Nat :=
  (candidate.filter (fun c => decide (idx2symbol c = ")"))).length

/-- The bracket-repair step of `Jobs.eval`
(jobs/src/runner.py lines 197-205 and runner_jobs.py lines 220-231):
count the decoded tokens whose symbol is an opening or closing bracket;
when `diff > 0` the source evaluates
`self.test_data_loader.tgt_vocab.symbol2idx[")"]` for each token to
append, but `test_data_loader` is a plain `torch.utils.data.DataLoader`
(runner.py line 76, runner_jobs.py line 108) on which no `tgt_vocab`
attribute is ever set and which does not forward attribute lookups, so
that branch raises `AttributeError` before appending anything — modelled
as `.error`; when `diff < 0` the last `-diff` tokens are dropped
(`candidate[:diff]`); a balanced candidate passes through. -/
def repairCandidate (idx2symbol : Nat → String) (candidate : List Nat) :
    Except String (List Nat) :=
  let numLeft := countLeftParen idx2symbol candidate
  let numRight := countRightParen idx2symbol candidate
  let diff : Int := (numLeft : Int) - (numRight : Int)
  if 0 < diff then
    .error "AttributeError: DataLoader object has no attribute tgt_vocab"
  else if diff < 0 then .ok (candidate.take (candidate.length - (-diff).toNat))
  else .ok candidate

/-- Modelled from the spec: the `Vocab` class
(`graph4nlp.pytorch.modules.utils.vocab_utils`) is not under `src/`; per
spec section 4.3 it is a bidirectional symbol/index mapping with a reserved
unknown token, `symbol_to_index` returning the unknown index for absent
tokens and `add_symbol` appending a new entry (idempotent when present).
Indices are positions in `idx2symbol`. -/
structure VocabV where
  idx2symbol : List String
  unkToken : String
deriving DecidableEq

/-- Index of the first occurrence of a token. -/
def lookupIdx (l : List String) (t : String) : Option Nat :=
  match l with
  | [] => none
  | s :: rest => if s = t then some 0 else (lookupIdx rest t).map (· + 1)

/-- Modelled from the spec: `Vocab.get_symbol_idx` — the token's index, or
the unknown token's index when absent. -/
def VocabV.getSymbolIdx (v : VocabV) (t : String) : Nat :=
  match lookupIdx v.idx2symbol t with
  | some i => i
  | none =>
    match lookupIdx v.idx2symbol v.unkToken with
    | some i => i
    | none => 0

/-- Modelled from the spec: `Vocab.add_symbol` — append a new entry with
the next index; a token already present is left alone. -/
def VocabV.addSymbol (v : VocabV) (t : String) : VocabV :=
  match lookupIdx v.idx2symbol t with
  | some _ => v
  | none => { v with idx2symbol := v.idx2symbol ++ [t] }

/-- A heap of vocabulary objects: Python object identity is an index into
`cells`, so aliasing versus deep copying is observable. -/
structure VocabStore where
  cells : List VocabV

/-- In-place `add_symbol` on the object behind reference `r`. -/
def storeAddSymbol (s : VocabStore) (r : Nat) (t : String) : VocabStore :=
  match s.cells[r]? with
  | some v => ⟨s.cells.set r (v.addSymbol t)⟩
  | none => s

/-- An arbitrary sequence of `add_symbol` calls on the object behind `r`. -/
def storeAddSeq (s : VocabStore) (r : Nat) : List String → VocabStore
  | [] => s
  | t :: ts => storeAddSeq (storeAddSymbol s r t) r ts

/-- The per-node loop of `Jobs.prepare_ext_vocab`: a node whose `type`
attribute is absent or `0` and whose token maps to the unknown index is
added to the OOV dictionary. -/
def oovLoop (s : VocabStore) (r : Nat) : List (String × Option Nat) → VocabStore
  | [] => s
  | (tok, ty) :: rest =>
    let s2 :=
      match s.cells[r]? with
      | some v =>
        if (ty = none ∨ ty = some 0) ∧
            v.getSymbolIdx tok = v.getSymbolIdx v.unkToken then
          storeAddSymbol s r tok
        else s
      | none => s
    oovLoop s2 r rest

/-- `Jobs.prepare_ext_vocab` (jobs/src/runner.py lines 100-113,
runner_jobs.py lines 136-145): `oov_dict = copy.deepcopy(src_vocab)`
allocates a fresh object holding a copy of the base vocabulary's value,
then OOV node tokens are added to that fresh object.  Returns the updated
heap and the reference to the new OOV dictionary.  (The `token_id_oov`
node feature it also writes does not touch any vocabulary.) -/
def prepareExtVocab (s : VocabStore) (srcRef : Nat)
    (nodes : List (String × Option Nat)) : VocabStore × Nat :=
  match s.cells[srcRef]? with
  | none => (s, srcRef)
  | some v =>
    let oovRef := s.cells.length
    let s1 : VocabStore := ⟨s.cells ++ [v]⟩
    (oovLoop s1 oovRef nodes, oovRef)

lemma aggU_matmul {n din dout : Nat} (feat : Fin n → Vec din) (W : Mat din dout)
    (es : List (Fin n × Fin n)) (i : Fin n) (k : Fin dout) :
    aggU (fun j => vecMulM (feat j) W) es i k = vecMulM (aggU feat es i) W k := by
  induction es with
  | nil => simp [aggU, vecMulM]
  | cons e es ih =>
    by_cases h : e.2 = i <;>
      simp [aggU, vecMulM, h, add_mul, Finset.sum_add_distrib, ih]

lemma aggW_matmul {n din dout : Nat} (feat : Fin n → Vec din) (W : Mat din dout)
    (l : List ((Fin n × Fin n) × ℚ)) (i : Fin n) (k : Fin dout) :
    aggW (fun j => vecMulM (feat j) W) l i k = vecMulM (aggW feat l i) W k := by
  induction l with
  | nil => simp [aggW, vecMulM]
  | cons e l ih =>
    by_cases h : e.1.2 = i <;>
      simp [aggW, vecMulM, h, add_mul, Finset.sum_add_distrib, ih, mul_assoc,
        Finset.mul_sum]

lemma aggBranch_matmul {din dout : Nat} (g : Graph) (c v : Option (List ℚ))
    (feat : Fin g.n → Vec din) (W : Mat din dout) :
    aggBranch g c v (fun i => vecMulM (feat i) W) =
      match aggBranch g c v feat with
      | .error e => .error e
      | .ok a => .ok (fun i => vecMulM (a i) W) := by
  cases c with
  | none =>
    simp only [aggBranch]
    congr 1
    funext i k
    exact aggU_matmul feat W g.edges i k
  | some ws =>
    cases v with
    | none => rfl
    | some vs =>
      simp only [aggBranch]
      congr 1
      funext i k
      exact aggW_matmul feat W (g.edges.zip vs) i k

/-- C5: for the undirected GCN layer under exact arithmetic, the
multiply-weight-then-aggregate path (taken when `in_feats > out_feats`)
and the aggregate-then-multiply path produce identical outputs for every
graph, feature tensor, weight configuration, edge weighting and
normalization mode; the branch choice is purely a performance
optimization. -/
theorem c5_branch_choice_equivalent (rsqrt : ℚ → ℚ) {din dout : Nat}
    (p : UParams din dout) (g : Graph) (feat : Fin g.n → Vec din)
    (ext : Option (Mat din dout)) (ew rew : Option (List ℚ)) :
    undirectedPath rsqrt p g feat ext ew rew true =
      undirectedPath rsqrt p g feat ext ew rew false := by
  unfold undirectedPath
  cases rew with
  | some r => rfl
  | none =>
    cases hW : resolveWeight ext p.weight with
    | error e => simp [dirCore, hW]
    | ok W =>
      simp only [Option.isSome_none, Bool.false_eq_true, if_false, dirCore, hW]
      rw [aggBranch_matmul]
      simp only [if_true]

/-- Spec-side formulation for C6: the unweighted sum of the incoming
neighbours' features at node `i`. -/
def neighborSum {d : Nat} (g : Graph) (feat : Fin g.n → Vec d) (i : Fin g.n) :
    Vec d :=
  fun k => ((g.edges.filter (fun e => decide (e.2 = i))).map (fun e => feat e.1 k)).sum

lemma aggU_eq_filter_sum {n d : Nat} (feat : Fin n → Vec d)
    (es : List (Fin n × Fin n)) (i : Fin n) (k : Fin d) :
    aggU feat es i k =
      ((es.filter (fun e => decide (e.2 = i))).map (fun e => feat e.1 k)).sum := by
  induction es with
  | nil => simp [aggU]
  | cons e es ih =>
    by_cases h : e.2 = i <;> simp [aggU, List.filter_cons, h, ih]

lemma aggU_eq_neighborSum {d : Nat} (g : Graph) (feat : Fin g.n → Vec d)
    (i : Fin g.n) : aggU feat g.edges i = neighborSum g feat i := by
  funext k
  exact aggU_eq_filter_sum feat g.edges i k

lemma vecMulM_id {d : Nat} (v : Vec d) (k : Fin d) : vecMulM v (idMat d) k = v k := by
  simp [vecMulM, idMat, mul_ite, mul_one, mul_zero]

/-- The 3-node path graph 0 → 1 → 2. -/
abbrev pathG : Graph := ⟨3, [((0 : Fin 3), (1 : Fin 3)), ((1 : Fin 3), (2 : Fin 3))]⟩

/-- C6: with `norm='none'` and no edge weights, the undirected layer's
output at every node `i` is the sum of the features of `i`'s in-neighbours
multiplied by the weight matrix plus the bias; and on the 3-node path
graph 0→1→2 with feature width 4, identity weight and zero bias, node 2's
output equals node 1's input feature. -/
theorem c6_norm_none_is_neighbor_sum :
    (∀ (rsqrt : ℚ → ℚ) {din dout : Nat} (W : Mat din dout) (b : Vec dout)
        (g : Graph) (feat : Fin g.n → Vec din),
      undirectedForward rsqrt ⟨some W, some b, NormMode.none, none⟩ g feat
          none none none =
        .ok (fun i k => vecMulM (neighborSum g feat i) W k + b k)) ∧
    (∀ (rsqrt : ℚ → ℚ) (feat : Fin 3 → Vec 4),
      (undirectedForward rsqrt
          ⟨some (idMat 4), some (fun _ => 0), NormMode.none, none⟩ pathG feat
          none none none).map (fun r => r 2) = .ok (feat 1)) := by
  constructor
  · intro rsqrt din dout W b g feat
    have hnb : NormMode.none ≠ NormMode.both := by decide
    unfold undirectedForward undirectedPath dirCore
    cases hb : decide (dout < din) with
    | true =>
      simp only [resolveWeight, aggBranch, Option.isSome_none, Bool.false_eq_true,
        if_false, if_true, if_neg hnb]
      congr 1
      funext i k
      rw [aggU_matmul, aggU_eq_neighborSum]
    | false =>
      simp only [resolveWeight, aggBranch, Option.isSome_none, Bool.false_eq_true,
        if_false, if_neg hnb]
      congr 1
      funext i k
      rw [aggU_eq_neighborSum]
  · intro rsqrt feat
    have hnb : NormMode.none ≠ NormMode.both := by decide
    have h44 : decide (4 < 4) = false := by decide
    unfold undirectedForward undirectedPath dirCore
    simp only [resolveWeight, aggBranch, Option.isSome_none, Bool.false_eq_true,
      if_false, h44, if_neg hnb, Except.map]
    congr 1
    funext k
    rw [vecMulM_id]
    simp [aggU]

/-- Concrete 2-node graph with the single edge 0 → 1. -/
abbrev gC : Graph := ⟨2, [((0 : Fin 2), (1 : Fin 2))]⟩

/-- Concrete width-1 input features: node 0 carries 5, node 1 carries 7. -/
def fC : Fin 2 → Vec 1 := fun i _ => if i.val = 0 then 5 else 7

/-- Concrete bidirectional parameters: identity weights, no bias,
no normalization, no activation; `in_feats = out_feats = 1`, so the
aggregate-first branch is taken. -/
def pC : BiParams 1 1 :=
  ⟨some (idMat 1), some (idMat 1), none, none, NormMode.none, none⟩

/-- Zero fuse-linear parameters for concrete `bi_fuse` runs. -/
def fuseWC : Mat (4 * 1) 1 := fun _ _ => 0

/-- Zero fuse-linear bias. -/
def fuseBC : Vec 1 := fun _ => 0

/-- Backward-component extraction from a concrete `bi_sep` result. -/
def exOutPair (e : Except String ((Fin 2 → Vec 1) × (Fin 2 → Vec 1))) : ℚ :=
  match e with
  | .ok pr => pr.2 0 0
  | .error _ => 0

/-- Node-0 entry extraction from a concrete single-tensor result. -/
def exOutSingle (e : Except String (Fin 2 → Vec 1)) : ℚ :=
  match e with
  | .ok r => r 0 0
  | .error _ => 0

/-- C1 (code evaluation at the failing input): on the graph 0 → 1 with
input features (5, 7), identity weights, `norm='none'`,
`edge_weight = [2]` and `reverse_edge_weight = [3]`, in the
aggregate-first path (`in_feats = out_feats = 1`): the `bi_sep` backward
result at node 0 is `2 * 7 = 14`, i.e. the message was multiplied by
`edge_weight`; running the undirected layer on the reversed graph with
`reverse_edge_weight` — what the claim prescribes for the backward
direction — gives `3 * 7 = 21`; and `bi_fuse` (with a constant-0 gate so
its output is exactly its backward branch) run with no `edge_weight` but
`reverse_edge_weight = [3]` gives `7`, i.e. the reverse weights were
ignored entirely.  Forward and backward edge weighting are conflated in
the aggregate-first backward branches. -/
theorem c1_backward_weighting_conflated :
    exOutPair (biSepForward (fun _ => 1) pC gC fC fC none none
      (some [2]) (some [3])) = 14 ∧
    exOutSingle (undirectedForward (fun _ => 1)
      ⟨pC.weight_bw, pC.bias_bw, pC.norm, pC.act⟩ gC.reverse fC none
      (some [3]) none) = 21 ∧
    exOutSingle (biFuseForward (fun _ => 1) (fun _ => 0) pC fuseWC fuseBC gC fC
      none none none (some [3])) = 7 := by
  refine ⟨?_, ?_, ?_⟩
  · simp [exOutPair, biSepForward, dirCore, pC, gC, fC, resolveWeight, aggBranch,
      aggW, vecMulM, idMat, Graph.reverse, bind, Except.bind, pure, Except.pure,
      Fin.sum_univ_one]
    norm_num
  · simp [exOutSingle, undirectedForward, undirectedPath, dirCore, pC, gC, fC,
      resolveWeight, aggBranch, aggW, vecMulM, idMat, Graph.reverse,
      Fin.sum_univ_one]
    norm_num
  · simp [exOutSingle, biFuseForward, dirCore, pC, gC, fC, fuseWC, fuseBC,
      resolveWeight, aggBranch, aggU, aggW, vecMulM, idMat, Graph.reverse,
      fuseCombine, bind, Except.bind, pure, Except.pure, Fin.sum_univ_one]

lemma decide_true_of_lt {a b : Nat} (h : a < b) : decide (a < b) = true := by
  simp [h]

/-- C3 (amended): the bi_sep layer's output equals the pair of the
undirected layer's results — on `g` with `ffw` and `edge_weight` using the
forward weight/bias, and on the edge-reversed graph with `fbw` and
`reverse_edge_weight` using the backward weight/bias — whenever
`in_feats > out_feats` (multiply-weight-first path), or
`edge_weight = reverse_edge_weight`, or `reverse_edge_weight` is absent.
In the aggregate-first path with distinct present edge weights the source's
backward branch multiplies by `edge_weight` instead (see the
counterexample). -/
theorem c3_bisep_refines_two_undirected (rsqrt : ℚ → ℚ) {din dout : Nat}
    (p : BiParams din dout) (g : Graph) (ffw fbw : Fin g.n → Vec din)
    (ew rew : Option (List ℚ))
    (h : dout < din ∨ ew = rew ∨ rew = none) :
    biSepForward rsqrt p g ffw fbw none none ew rew =
      (do
        let fw ← undirectedForward rsqrt ⟨p.weight_fw, p.bias_fw, p.norm, p.act⟩
            g ffw none ew none
        let bw ← undirectedForward rsqrt ⟨p.weight_bw, p.bias_bw, p.norm, p.act⟩
            g.reverse fbw none rew none
        pure (fw, bw)) := by
  unfold biSepForward undirectedForward undirectedPath
  simp only [Option.isSome_none, Bool.false_eq_true, if_false]
  have e1 : dirCore rsqrt p.norm p.act p.weight_bw p.bias_bw g.reverse fbw none
      rew rew rew ew (decide (dout < din)) =
        dirCore rsqrt p.norm p.act p.weight_bw p.bias_bw g.reverse fbw none
      rew rew rew rew (decide (dout < din)) := by
    rcases h with h | h | h
    · rw [decide_true_of_lt h]
      rfl
    · rw [h]
    · rw [h]
      cases decide (dout < din) <;> rfl
  simp only [e1]

/-- C3 counterexample: the claim as stated fails on the concrete input of
`c1_backward_weighting_conflated` — with `in_feats = out_feats` and
distinct present edge weights, `bi_sep` is not the pair of independent
undirected runs. -/
theorem c3_counterexample :
    biSepForward (fun _ => 1) pC gC fC fC none none (some [2]) (some [3]) ≠
      (do
        let fw ← undirectedForward (fun _ => 1)
            ⟨pC.weight_fw, pC.bias_fw, pC.norm, pC.act⟩ gC fC none (some [2]) none
        let bw ← undirectedForward (fun _ => 1)
            ⟨pC.weight_bw, pC.bias_bw, pC.norm, pC.act⟩ gC.reverse fC none
            (some [3]) none
        pure (fw, bw)) := by
  intro hEq
  have h2 := congrArg exOutPair hEq
  have hl : exOutPair (biSepForward (fun _ => 1) pC gC fC fC none none
      (some [2]) (some [3])) = 14 := by
    simp [exOutPair, biSepForward, dirCore, pC, gC, fC, resolveWeight, aggBranch,
      aggW, vecMulM, idMat, Graph.reverse, bind, Except.bind, pure, Except.pure,
      Fin.sum_univ_one]
    norm_num
  have hr : exOutPair (do
      let fw ← undirectedForward (fun _ => 1)
          ⟨pC.weight_fw, pC.bias_fw, pC.norm, pC.act⟩ gC fC none (some [2]) none
      let bw ← undirectedForward (fun _ => 1)
          ⟨pC.weight_bw, pC.bias_bw, pC.norm, pC.act⟩ gC.reverse fC none
          (some [3]) none
      pure (fw, bw)) = 21 := by
    simp [exOutPair, undirectedForward, undirectedPath, dirCore, pC, gC, fC,
      resolveWeight, aggBranch, aggW, vecMulM, idMat, Graph.reverse, bind,
      Except.bind, pure, Except.pure, Fin.sum_univ_one]
    norm_num
  rw [hl, hr] at h2
  norm_num at h2

/-- Witness for the amended C3 at a concrete input with
`edge_weight = reverse_edge_weight = [2]`. -/
theorem c3_witness :
    biSepForward (fun _ => 1) pC gC fC fC none none (some [2]) (some [2]) =
      (do
        let fw ← undirectedForward (fun _ => 1)
            ⟨pC.weight_fw, pC.bias_fw, pC.norm, pC.act⟩ gC fC none (some [2]) none
        let bw ← undirectedForward (fun _ => 1)
            ⟨pC.weight_bw, pC.bias_bw, pC.norm, pC.act⟩ gC.reverse fC none
            (some [2]) none
        pure (fw, bw)) :=
  c3_bisep_refines_two_undirected (fun _ => 1) pC gC fC fC (some [2]) (some [2])
    (Or.inr (Or.inl rfl))

/-- C4 (amended): the bi_fuse layer's output equals
`gate * fw + (1 - gate) * bw` with
`gate = sigmoid(fuse_linear(cat([fw, bw, fw*bw, fw-bw])))`, where
`(fw, bw)` are the two outputs bi_sep produces with the same
weights/biases on the input pair `(feat, feat)` — whenever
`in_feats > out_feats` or `edge_weight = reverse_edge_weight` (in
particular whenever edge weights are unused).  In the aggregate-first path
with distinct edge-weight arguments the two layers' backward branches
read different weights (see the counterexample). -/
theorem c4_bifuse_is_gated_bisep (rsqrt sigmoid : ℚ → ℚ) {din dout : Nat}
    (p : BiParams din dout) (fuseW : Mat (4 * dout) dout) (fuseB : Vec dout)
    (g : Graph) (feat : Fin g.n → Vec din) (ew rew : Option (List ℚ))
    (h : dout < din ∨ ew = rew) :
    biFuseForward rsqrt sigmoid p fuseW fuseB g feat none none ew rew =
      (biSepForward rsqrt p g feat feat none none ew rew).map
        (fun pr => fuseCombine sigmoid fuseW fuseB pr.1 pr.2) := by
  unfold biFuseForward biSepForward
  have e1 : dirCore rsqrt p.norm p.act p.weight_bw p.bias_bw g.reverse feat none
      rew rew ew rew (decide (dout < din)) =
        dirCore rsqrt p.norm p.act p.weight_bw p.bias_bw g.reverse feat none
      rew rew rew ew (decide (dout < din)) := by
    rcases h with h | h
    · rw [decide_true_of_lt h]
      rfl
    · rw [h]
  simp only [e1]
  cases hA : dirCore rsqrt p.norm p.act p.weight_fw p.bias_fw g feat none
      ew ew ew ew (decide (dout < din)) with
  | error e => simp [hA, Except.map, bind, Except.bind]
  | ok fw =>
    cases hB : dirCore rsqrt p.norm p.act p.weight_bw p.bias_bw g.reverse feat
        none rew rew rew ew (decide (dout < din)) with
    | error e => simp [hA, hB, Except.map, bind, Except.bind]
    | ok bw => simp [hA, hB, Except.map, bind, Except.bind, pure, Except.pure]

/-- C4 counterexample: with `in_feats = out_feats` and distinct present
edge weights, bi_fuse's output differs from the gated combination of
bi_sep's two outputs (gate held constant at 0, so both sides reduce to
their backward branches: 21 versus 14). -/
theorem c4_counterexample :
    biFuseForward (fun _ => 1) (fun _ => 0) pC fuseWC fuseBC gC fC none none
        (some [2]) (some [3]) ≠
      (biSepForward (fun _ => 1) pC gC fC fC none none (some [2]) (some [3])).map
        (fun pr => fuseCombine (fun _ => 0) fuseWC fuseBC pr.1 pr.2) := by
  intro hEq
  have h2 := congrArg exOutSingle hEq
  have hl : exOutSingle (biFuseForward (fun _ => 1) (fun _ => 0) pC fuseWC fuseBC
      gC fC none none (some [2]) (some [3])) = 21 := by
    simp [exOutSingle, biFuseForward, dirCore, pC, gC, fC, fuseWC, fuseBC,
      resolveWeight, aggBranch, aggW, vecMulM, idMat, Graph.reverse, fuseCombine,
      bind, Except.bind, pure, Except.pure, Fin.sum_univ_one]
    norm_num
  have hr : exOutSingle ((biSepForward (fun _ => 1) pC gC fC fC none none
      (some [2]) (some [3])).map
        (fun pr => fuseCombine (fun _ => 0) fuseWC fuseBC pr.1 pr.2)) = 14 := by
    simp [exOutSingle, biSepForward, dirCore, pC, gC, fC, fuseWC, fuseBC,
      resolveWeight, aggBranch, aggW, vecMulM, idMat, Graph.reverse, fuseCombine,
      bind, Except.bind, pure, Except.pure, Except.map, Fin.sum_univ_one]
    norm_num
  rw [hl, hr] at h2
  norm_num at h2

/-- Witness for the amended C4 at a concrete input with
`edge_weight = reverse_edge_weight = [2]`. -/
theorem c4_witness :
    biFuseForward (fun _ => 1) (fun _ => 0) pC fuseWC fuseBC gC fC none none
        (some [2]) (some [2]) =
      (biSepForward (fun _ => 1) pC gC fC fC none none (some [2]) (some [2])).map
        (fun pr => fuseCombine (fun _ => 0) fuseWC fuseBC pr.1 pr.2) :=
  c4_bifuse_is_gated_bisep (fun _ => 1) (fun _ => 0) pC fuseWC fuseBC gC fC
    (some [2]) (some [2]) (Or.inr rfl)

lemma aggBranch_ok_of {d : Nat} (g : Graph) (c v : Option (List ℚ))
    (feat : Fin g.n → Vec d) (h : c = none ∨ v.isSome) :
    ∃ a, aggBranch g c v feat = .ok a := by
  cases c with
  | none => exact ⟨_, rfl⟩
  | some ws =>
    cases v with
    | none =>
      rcases h with h | h
      · exact absurd h (by simp)
      · exact absurd h (by simp)
    | some vs => exact ⟨_, rfl⟩

lemma dirCore_ok_of (rsqrt : ℚ → ℚ) {din dout : Nat} (norm : NormMode)
    (act : Option (ℚ → ℚ)) (reg : Option (Mat din dout)) (bias : Option (Vec dout))
    (g : Graph) (feat : Fin g.n → Vec din)
    (cmf vmf caf vaf : Option (List ℚ)) (mf : Bool) (W : Mat din dout)
    (hW : reg = some W) (h1 : cmf = none ∨ vmf.isSome) (h2 : caf = none ∨ vaf.isSome) :
    ∃ out, dirCore rsqrt norm act reg bias g feat none cmf vmf caf vaf mf = .ok out := by
  subst hW
  unfold dirCore
  simp only [resolveWeight]
  cases mf with
  | true =>
    obtain ⟨a, ha⟩ := aggBranch_ok_of g cmf vmf
      (fun i k => vecMulM ((if norm = NormMode.both then
        (fun i k => rsqrt (clampDeg (g.outDeg i)) * feat i k) else feat) i) W k) h1
    rw [if_pos rfl, ha]
    cases norm <;> cases bias <;> cases act <;> exact ⟨_, rfl⟩
  | false =>
    obtain ⟨a, ha⟩ := aggBranch_ok_of g caf vaf
      (if norm = NormMode.both then
        (fun i k => rsqrt (clampDeg (g.outDeg i)) * feat i k) else feat) h2
    rw [if_neg Bool.false_ne_true, ha]
    cases norm <;> cases bias <;> cases act <;> exact ⟨_, rfl⟩

/-- C9: every degree used as a normalization divisor in the undirected
forward pass is clamped to at least 1 (`clampDeg` is the modelled
`degs.float().clamp(min=1)`, applied to both the in-degrees and the
out-degrees the layer reads), the clamped value is never zero, and — for
any normalization mode, so in particular `right` and `both` — the forward
pass on any graph, including graphs with isolated nodes, returns a defined
output for every node rather than failing. -/
theorem c9_degree_clamp_no_division_by_zero (rsqrt : ℚ → ℚ) {din dout : Nat}
    (p : UParams din dout) (g : Graph) (feat : Fin g.n → Vec din)
    (ew : Option (List ℚ)) (W : Mat din dout) (hW : p.weight = some W) :
    (∀ i : Fin g.n, 1 ≤ clampDeg (g.inDeg i) ∧ 1 ≤ clampDeg (g.outDeg i)) ∧
    (∀ d : Nat, clampDeg d ≠ 0) ∧
    (∃ out, undirectedForward rsqrt p g feat none ew none = .ok out) := by
  refine ⟨fun i => ⟨le_max_right _ _, le_max_right _ _⟩, fun d => ?_, ?_⟩
  · have h1 : (1 : ℚ) ≤ clampDeg d := le_max_right _ _
    exact (lt_of_lt_of_le one_pos h1).ne'
  · unfold undirectedForward undirectedPath
    simp only [Option.isSome_none, Bool.false_eq_true, if_false]
    exact dirCore_ok_of rsqrt p.norm p.act p.weight p.bias g feat ew ew ew ew _ W hW
      (by cases ew <;> simp) (by cases ew <;> simp)

/-- Witness for C9: a graph whose node 0 has in-degree zero, with
`norm='right'`; the layer still returns an output. -/
theorem c9_witness :
    (∀ i : Fin gC.n, 1 ≤ clampDeg (gC.inDeg i) ∧ 1 ≤ clampDeg (gC.outDeg i)) ∧
    (∀ d : Nat, clampDeg d ≠ 0) ∧
    (∃ out, undirectedForward (fun _ => 1)
      ⟨some (idMat 1), none, NormMode.right, none⟩ gC fC none none none = .ok out) :=
  c9_degree_clamp_no_division_by_zero (fun _ => 1)
    ⟨some (idMat 1), none, NormMode.right, none⟩ gC fC none (idMat 1) rfl

/-- C8: (a) any `norm` string outside `none`/`both`/`right` makes layer
construction fail for each of the three valid direction options; (b) any
`direction_option` string outside `undirected`/`bi_sep`/`bi_fuse` makes
construction fail; (c) calling the undirected forward with an external
weight while the layer holds a registered weight parameter fails at that
call.  In each case the result is an error, never a silently corrected
configuration. -/
theorem c8_configuration_errors :
    (∀ {din dout : Nat} (direction normS : String) (weight bias : Bool)
        (act : Option (ℚ → ℚ)) (iWfw iWbw : Mat din dout)
        (fuseW : Mat (4 * dout) dout) (fuseB : Vec dout),
      (direction = "undirected" ∨ direction = "bi_sep" ∨ direction = "bi_fuse") →
      normS ≠ "none" → normS ≠ "both" → normS ≠ "right" →
      ∃ m, gcnLayerInit direction normS weight bias act iWfw iWbw fuseW fuseB =
        Except.error m) ∧
    (∀ {din dout : Nat} (direction normS : String) (weight bias : Bool)
        (act : Option (ℚ → ℚ)) (iWfw iWbw : Mat din dout)
        (fuseW : Mat (4 * dout) dout) (fuseB : Vec dout),
      direction ≠ "undirected" → direction ≠ "bi_sep" → direction ≠ "bi_fuse" →
      ∃ m, gcnLayerInit direction normS weight bias act iWfw iWbw fuseW fuseB =
        Except.error m) ∧
    (∀ (rsqrt : ℚ → ℚ) {din dout : Nat} (p : UParams din dout) (g : Graph)
        (feat : Fin g.n → Vec din) (w w0 : Mat din dout) (ew : Option (List ℚ)),
      p.weight = some w0 →
      ∃ m, undirectedForward rsqrt p g feat (some w) ew none = Except.error m) := by
  refine ⟨?_, ?_, ?_⟩
  · intro din dout direction normS weight bias act iWfw iWbw fuseW fuseB hdir h1 h2 h3
    have hn : ∃ m, normOfString normS = Except.error m := by
      unfold normOfString
      rw [if_neg h1, if_neg h2, if_neg h3]
      exact ⟨_, rfl⟩
    obtain ⟨m, hm⟩ := hn
    rcases hdir with h | h | h <;> subst h <;>
      · unfold gcnLayerInit
        simp [hm, Except.map]
  · intro din dout direction normS weight bias act iWfw iWbw fuseW fuseB h1 h2 h3
    unfold gcnLayerInit
    rw [if_neg h1, if_neg h2, if_neg h3]
    exact ⟨_, rfl⟩
  · intro rsqrt din dout p g feat w w0 ew hreg
    unfold undirectedForward undirectedPath dirCore
    simp only [Option.isSome_none, Bool.false_eq_true, if_false, resolveWeight, hreg]
    exact ⟨_, rfl⟩

/-- Witness for C8: the invalid strings `"norm?"` and `"directional"`, and
a conflicting external weight, each produce an error concretely. -/
theorem c8_witness :
    (∃ m, @gcnLayerInit 1 1 "undirected" "norm?" true true none (idMat 1) (idMat 1)
      fuseWC fuseBC = Except.error m) ∧
    (∃ m, @gcnLayerInit 1 1 "directional" "both" true true none (idMat 1) (idMat 1)
      fuseWC fuseBC = Except.error m) ∧
    (∃ m, undirectedForward (fun _ => 1)
      ⟨some (idMat 1), none, NormMode.none, none⟩ gC fC (some (idMat 1)) none none =
        Except.error m) :=
  ⟨c8_configuration_errors.1 "undirected" "norm?" true true none (idMat 1) (idMat 1)
      fuseWC fuseBC (Or.inl rfl) (by decide) (by decide) (by decide),
   c8_configuration_errors.2.1 "directional" "both" true true none (idMat 1) (idMat 1)
      fuseWC fuseBC (by decide) (by decide) (by decide),
   c8_configuration_errors.2.2 (fun _ => 1)
      ⟨some (idMat 1), none, NormMode.none, none⟩ gC fC (idMat 1) (idMat 1) none rfl⟩

/-- C2 (code evaluation at the failing inputs): the claim says a decoded
candidate with `d` more opening than closing bracket tokens gets exactly
`d` closing tokens appended; in the source that branch reads the
`tgt_vocab` attribute of a plain torch `DataLoader`, which does not
exist, so for every such candidate the repair raises instead of
appending.  The two reachable branches behave as the claim states: `d`
more closing tokens truncate exactly the last `d` tokens, and a balanced
candidate is left unchanged. -/
theorem c2_append_path_raises (v : Nat → String) (cand : List Nat) :
    (countRightParen v cand < countLeftParen v cand →
      repairCandidate v cand =
        .error "AttributeError: DataLoader object has no attribute tgt_vocab") ∧
    (countLeftParen v cand < countRightParen v cand →
      repairCandidate v cand =
        .ok (cand.take (cand.length -
          (countRightParen v cand - countLeftParen v cand)))) ∧
    (countLeftParen v cand = countRightParen v cand →
      repairCandidate v cand = .ok cand) := by
  refine ⟨?_, ?_, ?_⟩ <;> intro h <;> unfold repairCandidate
  · rw [if_pos (by omega)]
  · rw [if_neg (by omega), if_pos (by omega)]
    rw [show (-((countLeftParen v cand : Int) - (countRightParen v cand : Int))).toNat =
      countRightParen v cand - countLeftParen v cand from by omega]
  · rw [if_neg (by omega), if_neg (by omega)]

/-- Concrete index-to-symbol map: 0 is the opening bracket, 1 the closing
bracket, everything else a plain token. -/
def vW : Nat → String := fun c => if c = 0 then "(" else if c = 1 then ")" else "x"

/-- Witness for C2: two unmatched opens hit the crashing attribute lookup;
two unmatched closes get exactly the last two tokens truncated; a balanced
sequence is unchanged. -/
theorem c2_append_witness :
    repairCandidate vW [0, 0] =
      .error "AttributeError: DataLoader object has no attribute tgt_vocab" ∧
    repairCandidate vW [1, 1] = .ok [] ∧
    repairCandidate vW [0, 1] = .ok [0, 1] := by
  refine ⟨?_, ?_, ?_⟩
  · exact (c2_append_path_raises vW [0, 0]).1
      (by simp [countLeftParen, countRightParen, vW])
  · have h := (c2_append_path_raises vW [1, 1]).2.1
      (by simp [countLeftParen, countRightParen, vW])
    simpa [countLeftParen, countRightParen, vW] using h
  · exact (c2_append_path_raises vW [0, 1]).2.2
      (by simp [countLeftParen, countRightParen, vW])

lemma storeAddSymbol_getElem_ne (s : VocabStore) (r j : Nat) (t : String)
    (h : j ≠ r) : (storeAddSymbol s r t).cells[j]? = s.cells[j]? := by
  unfold storeAddSymbol
  cases hv : s.cells[r]? with
  | none => rfl
  | some v => simp [List.getElem?_set_ne (Ne.symm h)]

lemma storeAddSeq_getElem_ne (ts : List String) (s : VocabStore) (r j : Nat)
    (h : j ≠ r) : (storeAddSeq s r ts).cells[j]? = s.cells[j]? := by
  induction ts generalizing s with
  | nil => rfl
  | cons t ts ih =>
    unfold storeAddSeq
    rw [ih, storeAddSymbol_getElem_ne _ _ _ _ h]

lemma oovLoop_getElem_ne (nodes : List (String × Option Nat)) (s : VocabStore)
    (r j : Nat) (h : j ≠ r) : (oovLoop s r nodes).cells[j]? = s.cells[j]? := by
  induction nodes generalizing s with
  | nil => rfl
  | cons nd nodes ih =>
    obtain ⟨tok, ty⟩ := nd
    unfold oovLoop
    rw [ih]
    cases hv : s.cells[r]? with
    | none => rfl
    | some v =>
      show (if (ty = none ∨ ty = some 0) ∧
          v.getSymbolIdx tok = v.getSymbolIdx v.unkToken then
        storeAddSymbol s r tok else s).cells[j]? = s.cells[j]?
      by_cases hc : (ty = none ∨ ty = some 0) ∧
          v.getSymbolIdx tok = v.getSymbolIdx v.unkToken
      · rw [if_pos hc, storeAddSymbol_getElem_ne _ _ _ _ h]
      · rw [if_neg hc]

/-- C7: `prepare_ext_vocab` deep-copies the shared base source vocabulary,
so after any sequence of `add_symbol` calls on the returned OOV
dictionary, the base vocabulary object — its symbol list and hence both
its symbol-to-index and index-to-symbol mappings — is unchanged. -/
theorem c7_oov_vocab_isolated (s : VocabStore) (srcRef : Nat)
    (nodes : List (String × Option Nat)) (adds : List String)
    (h : srcRef < s.cells.length) :
    (storeAddSeq (prepareExtVocab s srcRef nodes).1
        (prepareExtVocab s srcRef nodes).2 adds).cells[srcRef]? =
      s.cells[srcRef]? := by
  unfold prepareExtVocab
  have hv : s.cells[srcRef]? = some s.cells[srcRef] := List.getElem?_eq_getElem h
  rw [hv]
  have hne : srcRef ≠ s.cells.length := Nat.ne_of_lt h
  rw [storeAddSeq_getElem_ne _ _ _ _ hne, oovLoop_getElem_ne _ _ _ _ hne]
  exact (List.getElem?_append_left h).trans hv

/-- A one-entry base vocabulary heap for the C7 witness. -/
def storeC : VocabStore := ⟨[⟨["<unk>"], "<unk>"⟩]⟩

/-- Witness for C7: one OOV node token and two subsequent `add_symbol`
calls leave the base vocabulary cell untouched. -/
theorem c7_witness :
    (storeAddSeq (prepareExtVocab storeC 0 [("job", none)]).1
        (prepareExtVocab storeC 0 [("job", none)]).2 ["a", "b"]).cells[0]? =
      storeC.cells[0]? :=
  c7_oov_vocab_isolated storeC 0 [("job", none)] ["a", "b"] (by decide)

/-- C10: (first part) the encoder's layer loop runs every layer except the
last with the given `edge_weight`/`reverse_edge_weight` and always invokes
the final output-projection layer with neither; (second part) consequently
a single-layer encoder with `use_edge_weight=True` produces identical
outputs on two input graphs that differ only in their `edge_weight` and
`reverse_edge_weight` edge features. -/
theorem c10_last_layer_ignores_edge_weights :
    (∀ (rsqrt sigmoid : ℚ → ℚ) {d : Nat} (g : Graph) (ls : List (LayerP d d))
        (last : LayerP d d) (h : Feat g.n d) (ew rew : Option (List ℚ)),
      forwardLoop rsqrt sigmoid g (ls ++ [last]) h ew rew =
        match runHiddenLayers rsqrt sigmoid g ls h ew rew with
        | .error e => .error e
        | .ok h2 => gcnLayerForward rsqrt sigmoid last g h2 none none) ∧
    (∀ (rsqrt sigmoid : ℚ → ℚ) {d : Nat} (dir : Direction) (l : LayerP d d)
        (g : Graph) (nf : Fin g.n → Vec d) (ew1 rew1 ew2 rew2 : List ℚ),
      gcnForward rsqrt sigmoid dir [l] true ⟨g, nf, ew1, rew1⟩ =
        gcnForward rsqrt sigmoid dir [l] true ⟨g, nf, ew2, rew2⟩) := by
  constructor
  · intro rsqrt sigmoid d g ls last h ew rew
    induction ls generalizing h with
    | nil => simp [forwardLoop, runHiddenLayers]
    | cons l ls ih =>
      rcases hq : ls ++ [last] with _ | ⟨e, t⟩
      · exact absurd hq (by simp)
      · rw [List.cons_append, hq]
        show forwardLoop rsqrt sigmoid g (l :: e :: t) h ew rew = _
        unfold forwardLoop
        cases hL : gcnLayerForward rsqrt sigmoid l g h ew rew with
        | error e2 => simp [runHiddenLayers, hL]
        | ok h2 =>
          simp only [runHiddenLayers, hL]
          rw [← hq]
          exact ih (flattenFeat h2)
  · intro rsqrt sigmoid d dir l g nf ew1 rew1 ew2 rew2
    rfl
